import Mathlib

/-!
Verification development for the MUG facial-expression pipeline
(`mug-fer/vgg_sift_lstm.py`).

The script fuses VGG and SIFT per-frame features, trains an LSTM classifier
with 5-fold stratified cross-validation, and evaluates accuracy on fold 1.
We embed the script's data flow shallowly:

* the fold partitioner follows `sklearn.cross_validation.StratifiedKFold`
  with `shuffle=False`: each class's samples (in order of appearance) are cut
  into `K` contiguous blocks of sizes `n/K` (+1 for the first `n%K` blocks),
  and a sample's test fold is the block index of its rank within its class;
* machine floats carrying accuracies and feature values are modelled as `ℚ`;
* the Keras classifier is abstracted as a function from sample index to
  predicted class; numpy `argmax` is embedded directly;
* parts of the repository that are imported but not present
  (`training.train_crossval`, `const`, Keras callback internals) are
  modelled from the spec, marked `Modelled from the spec:` where they occur.
-/

namespace MugFer

/-! ## Fold partitioner (`StratifiedKFold(labels, n_folds, shuffle=False)`) -/

/-- Number of samples carrying class label `c` (`label_counts` in sklearn). -/
def countLabel (y : List Nat) (c : Nat) : Nat :=
  (y.filter (fun a => a == c)).length

/-- Rank of sample `j` within its own class: how many earlier samples share
its label.  This is the position used by the per-class `KFold` assignment. -/
def rankInClass (y : List Nat) (j : Nat) : Nat :=
  ((y.take j).filter (fun a => a == y.getD j 0)).length

/-- `KFold` fold sizes: `fold_sizes = (n // n_folds) * ones(n_folds);
fold_sizes[:n % n_folds] += 1`. -/
def foldSizes (n K : Nat) : List Nat :=
  (List.range K).map (fun i => n / K + if i < n % K then 1 else 0)

/-- Index of the contiguous block (among blocks of the given sizes) that
contains position `p`; mirrors the `current/start/stop` scan in `KFold`. -/
def blockOf : List Nat → Nat → Nat
  | [], _ => 0
  | s :: rest, p => if p < s then 0 else blockOf rest (p - s) + 1

/-- Test-fold assignment of sample `j` (the `test_folds` array built by
`StratifiedKFold.__init__`): per-class `KFold(max(c, K), K)` blocks over the
sample's rank in its class. -/
def testFoldOf (y : List Nat) (K j : Nat) : Nat :=
  blockOf (foldSizes (max (countLabel y (y.getD j 0)) K) K) (rankInClass y j)

/-- Test indices of fold `i` (`test_folds == i`, yielded by
`_iter_test_masks`). -/
def test_indices_of (y : List Nat) (K i : Nat) : List Nat :=
  (List.range y.length).filter (fun j => testFoldOf y K j == i)

/-- Train indices of fold `i`: the complement of the test mask. -/
def train_indices_of (y : List Nat) (K i : Nat) : List Nat :=
  (List.range y.length).filter (fun j => !(testFoldOf y K j == i))

/-- The full partition, as the list of `(train, test)` pairs produced by
iterating the `StratifiedKFold` object. -/
def stratifiedKFold (y : List Nat) (K : Nat) : List (List Nat × List Nat) :=
  (List.range K).map (fun i => (train_indices_of y K i, test_indices_of y K i))

theorem length_foldSizes (n K : Nat) : (foldSizes n K).length = K := by
  simp [foldSizes]

theorem sum_map_range (f : Nat → Nat) :
    ∀ m : Nat, ((List.range m).map f).sum = ∑ i ∈ Finset.range m, f i := by
  intro m
  induction m with
  | zero => simp
  | succ k ih =>
      rw [List.range_succ, List.map_append, List.sum_append,
        Finset.sum_range_succ, ih]
      simp

theorem sum_foldSizes (n K : Nat) (hK : 0 < K) : (foldSizes n K).sum = n := by
  have hmod : n % K < K := Nat.mod_lt _ hK
  rw [foldSizes, sum_map_range]
  rw [Finset.sum_add_distrib, Finset.sum_const, Finset.card_range]
  have hfilter : Finset.filter (fun i => i < n % K) (Finset.range K)
      = Finset.range (n % K) := by
    ext a
    simp only [Finset.mem_filter, Finset.mem_range]
    constructor
    · exact fun h => h.2
    · exact fun h => ⟨lt_trans h hmod, h⟩
  have h1 : (∑ i ∈ Finset.range K, if i < n % K then 1 else 0) = n % K := by
    rw [Finset.sum_ite, Finset.sum_const, Finset.sum_const, hfilter,
      Finset.card_range, smul_eq_mul, mul_one, smul_eq_mul, mul_zero, add_zero]
  rw [h1]
  exact Nat.div_add_mod n K

theorem blockOf_lt (sizes : List Nat) (p : Nat) (hp : p < sizes.sum) :
    blockOf sizes p < sizes.length := by
  induction sizes generalizing p with
  | nil => simp at hp
  | cons s rest ih =>
      by_cases h : p < s
      · simp [blockOf, h]
      · have hp2 : p - s < rest.sum := by
          simp only [List.sum_cons] at hp
          omega
        simp only [blockOf, h, if_false, List.length_cons]
        exact Nat.succ_lt_succ (ih _ hp2)

theorem rankInClass_lt_countLabel (y : List Nat) (j : Nat) (hj : j < y.length) :
    rankInClass y j < countLabel y (y.getD j 0) := by
  unfold countLabel rankInClass
  set c := y.getD j 0 with hc
  have hget : y[j]? = some c := by
    rw [hc, List.getD_eq_getElem _ _ hj]
    exact List.getElem?_eq_getElem hj
  have htake : y.take (j + 1) = y.take j ++ [c] := by
    rw [List.take_succ, hget]
    rfl
  have hsplit : y.filter (fun a => a == c)
      = (y.take (j + 1)).filter (fun a => a == c)
        ++ (y.drop (j + 1)).filter (fun a => a == c) := by
    rw [← List.filter_append, List.take_append_drop]
  rw [hsplit, htake, List.filter_append, List.length_append, List.length_append]
  have hone : (List.filter (fun a => a == c) [c]).length = 1 := by simp
  omega

theorem testFoldOf_lt (y : List Nat) (K j : Nat) (hK : 0 < K)
    (hj : j < y.length) : testFoldOf y K j < K := by
  have h1 := rankInClass_lt_countLabel y j hj
  have h2 : rankInClass y j < (foldSizes (max (countLabel y (y.getD j 0)) K) K).sum := by
    rw [sum_foldSizes _ _ hK]
    exact lt_of_lt_of_le h1 (le_max_left _ _)
  have := blockOf_lt _ _ h2
  rwa [length_foldSizes] at this

theorem count_range_ite (j n : Nat) :
    (List.range n).count j = if j < n then 1 else 0 := by
  by_cases h : j < n
  · rw [if_pos h]
    exact List.count_eq_one_of_mem (List.nodup_range _) (List.mem_range.mpr h)
  · rw [if_neg h]
    exact List.count_eq_zero_of_not_mem (fun hm => h (List.mem_range.mp hm))

theorem count_filter_ite (p : Nat → Bool) (l : List Nat) (j : Nat) :
    (l.filter p).count j = if p j then l.count j else 0 := by
  by_cases h : p j = true
  · rw [if_pos h]
    exact List.count_filter h
  · rw [if_neg h]
    apply List.count_eq_zero_of_not_mem
    intro hm
    exact h (List.mem_filter.mp hm).2

theorem count_test_indices (y : List Nat) (K i j : Nat) :
    (test_indices_of y K i).count j
      = if j < y.length ∧ testFoldOf y K j = i then 1 else 0 := by
  unfold test_indices_of
  rw [count_filter_ite, count_range_ite]
  by_cases h1 : testFoldOf y K j = i <;> by_cases h2 : j < y.length <;>
    simp [h1, h2]

theorem sum_indicator_range (K t : Nat) :
    (((List.range K).map (fun i => if t = i then 1 else 0)).sum : Nat)
      = if t < K then 1 else 0 := by
  induction K with
  | zero => simp
  | succ k ih =>
      rw [List.range_succ, List.map_append, List.sum_append, ih]
      simp only [List.map_cons, List.map_nil, List.sum_cons, List.sum_nil]
      by_cases h1 : t = k
      · subst h1
        simp
      · split_ifs <;> omega

/-- Claim C5: for every label vector and every `K` between 2 and the size of
the smallest class, the `K` test-index sets of `StratifiedKFold` are pairwise
disjoint, each fold's train and test indices are disjoint, and the test sets
cover the full sample index range with each index appearing exactly once. -/
theorem stratified_kfold_partition (y : List Nat) (K : Nat)
    (hK : 2 ≤ K) (_hmin : ∀ c ∈ y, K ≤ countLabel y c) :
    (∀ i1 i2 j, i1 ≠ i2 →
        j ∈ test_indices_of y K i1 → j ∉ test_indices_of y K i2)
    ∧ (∀ i j, j ∈ test_indices_of y K i → j ∉ train_indices_of y K i)
    ∧ (∀ j, (((List.range K).map (fun i => test_indices_of y K i)).flatten).count j
        = if j < y.length then 1 else 0) := by
  have hK0 : 0 < K := by omega
  refine ⟨?_, ?_, ?_⟩
  · intro i1 i2 j hne h1 h2
    have m1 := (List.mem_filter.mp h1).2
    have m2 := (List.mem_filter.mp h2).2
    simp only [beq_iff_eq] at m1 m2
    exact hne (m1 ▸ m2 ▸ rfl)
  · intro i j h1 h2
    have m1 := (List.mem_filter.mp h1).2
    have m2 := (List.mem_filter.mp h2).2
    simp only [beq_iff_eq] at m1
    simp only [Bool.not_eq_true', beq_eq_false_iff_ne] at m2
    exact m2 m1
  · intro j
    rw [List.count_flatten, List.map_map]
    have hpt : ∀ i : Nat, (List.count j ∘ fun i => test_indices_of y K i) i
        = if j < y.length ∧ testFoldOf y K j = i then 1 else 0 := by
      intro i
      exact count_test_indices y K i j
    rw [List.map_congr_left (fun i _ => hpt i)]
    by_cases hj : j < y.length
    · have hfun : ∀ i : Nat,
          (if j < y.length ∧ testFoldOf y K j = i then 1 else 0)
            = if testFoldOf y K j = i then 1 else 0 := by
        intro i
        simp [hj]
      rw [List.map_congr_left (fun i _ => hfun i), sum_indicator_range,
        if_pos (testFoldOf_lt y K j hK0 hj), if_pos hj]
    · have hfun : ∀ i : Nat,
          (if j < y.length ∧ testFoldOf y K j = i then 1 else 0) = 0 := by
        intro i
        simp [hj]
      rw [List.map_congr_left (fun i _ => hfun i), if_neg hj]
      simp

/-- Witness for C5 at the label vector `[0,0,1,1]` with `K = 2`. -/
theorem stratified_kfold_partition_witness :
    (2 ≤ 2 ∧ ∀ c ∈ [0, 0, 1, 1], 2 ≤ countLabel [0, 0, 1, 1] c)
    ∧ ((∀ i1 i2 j, i1 ≠ i2 →
          j ∈ test_indices_of [0, 0, 1, 1] 2 i1 →
            j ∉ test_indices_of [0, 0, 1, 1] 2 i2)
      ∧ (∀ i j, j ∈ test_indices_of [0, 0, 1, 1] 2 i →
            j ∉ train_indices_of [0, 0, 1, 1] 2 i)
      ∧ (∀ j, (((List.range 2).map
            (fun i => test_indices_of [0, 0, 1, 1] 2 i)).flatten).count j
          = if j < ([0, 0, 1, 1] : List Nat).length then 1 else 0)) :=
  ⟨⟨by decide, by decide⟩,
    stratified_kfold_partition [0, 0, 1, 1] 2 (by decide) (by decide)⟩

/-! ## Evaluation path (the TESTING section of the script) -/

/-- Scan step of `np.argmax` over one row, tracking the first maximal entry. -/
def argmaxFrom : List ℚ → Nat → ℚ → Nat → Nat
  | [], bi, _, _ => bi
  | a :: rest, bi, bv, i =>
      if bv < a then argmaxFrom rest i a (i + 1) else argmaxFrom rest bi bv (i + 1)

/-- `np.argmax` over one row: index of the first maximal entry. -/
def argmax : List ℚ → Nat
  | [] => 0
  | a :: rest => argmaxFrom rest 0 a 1

/-- `labels = np.argmax(y, axis=1)` over the one-hot label tensor. -/
def labelsOf (y : List (List ℚ)) : List Nat := y.map argmax

/-- `n_folds=5` from the script. -/
def n_folds : Nat := 5

/-- The `test_idx` list built by iterating `skf = StratifiedKFold(labels, 5)`. -/
def test_idx (y : List (List ℚ)) : List (List Nat) :=
  (List.range n_folds).map (fun i => test_indices_of (labelsOf y) n_folds i)

/-- The `train_idx` list built by the same loop. -/
def train_idx (y : List (List ℚ)) : List (List Nat) :=
  (List.range n_folds).map (fun i => train_indices_of (labelsOf y) n_folds i)

/-- `test_indices = test_idx[1]`. -/
def test_indices (y : List (List ℚ)) : List Nat := (test_idx y).getD 1 []

/-- `y_predict = lstm_sift.predict_classes(vgg_sift_features[test_indices])`;
the trained Keras model is abstracted as a function from sample index to
predicted class index, applied once per selected test sample. -/
def y_predict (model : Nat → Nat) (idx : List Nat) : List Nat := idx.map model

/-- `y_true = np.argmax(y[test_indices], axis=1)`. -/
def y_true (y : List (List ℚ)) (idx : List Nat) : List Nat :=
  idx.map (fun j => argmax (y.getD j []))

/-- `(y_predict==y_true).sum()`: the number of exact matches. -/
def matchCount (yp yt : List Nat) : Nat :=
  ((yp.zip yt).filter (fun p => p.1 == p.2)).length

/-- `acc = (y_predict==y_true).sum()/len(y_predict)`, with numpy's true
division embedded in `ℚ`. -/
def acc_of (yp yt : List Nat) : ℚ := (matchCount yp yt : ℚ) / (yp.length : ℚ)

/-- The accuracy the script computes for the fold-1 test partition. -/
def test_accuracy (model : Nat → Nat) (y : List (List ℚ)) : ℚ :=
  acc_of (y_predict model (test_indices y)) (y_true y (test_indices y))

theorem matchCount_le_length (yp yt : List Nat) : matchCount yp yt ≤ yp.length := by
  unfold matchCount
  calc ((yp.zip yt).filter (fun p => p.1 == p.2)).length
      ≤ (yp.zip yt).length := List.length_filter_le _ _
    _ ≤ yp.length := by
        rw [List.length_zip]
        omega

theorem acc_of_bounds (yp yt : List Nat) : 0 ≤ acc_of yp yt ∧ acc_of yp yt ≤ 1 := by
  have hm := matchCount_le_length yp yt
  unfold acc_of
  rcases Nat.eq_zero_or_pos yp.length with h0 | hpos
  · have hz : matchCount yp yt = 0 := by omega
    rw [hz, h0]
    norm_num
  · have hposQ : (0 : ℚ) < (yp.length : ℚ) := by exact_mod_cast hpos
    constructor
    · positivity
    · rw [div_le_one hposQ]
      exact_mod_cast hm

theorem acc_of_strict (yp yt : List Nat) (h1 : 0 < matchCount yp yt)
    (h2 : matchCount yp yt < yp.length) :
    0 < acc_of yp yt ∧ acc_of yp yt < 1 := by
  unfold acc_of
  have hposQ : (0 : ℚ) < (yp.length : ℚ) := by
    exact_mod_cast lt_of_le_of_lt (Nat.zero_le _) h2
  constructor
  · apply div_pos _ hposQ
    exact_mod_cast h1
  · rw [div_lt_one hposQ]
    exact_mod_cast h2

/-- Claim C1: the Evaluator computes accuracy as the fraction of exact
matches over the selected test partition; it lies in `[0,1]`, and is a
proper fraction (strictly between 0 and 1) whenever at least one but not
all predictions match. -/
theorem evaluator_accuracy_bounds (model : Nat → Nat) (y : List (List ℚ)) :
    (0 ≤ test_accuracy model y ∧ test_accuracy model y ≤ 1)
    ∧ (0 < matchCount (y_predict model (test_indices y)) (y_true y (test_indices y)) →
        matchCount (y_predict model (test_indices y)) (y_true y (test_indices y))
          < (y_predict model (test_indices y)).length →
        0 < test_accuracy model y ∧ test_accuracy model y < 1) := by
  constructor
  · exact acc_of_bounds _ _
  · intro h1 h2
    exact acc_of_strict _ _ h1 h2

/-- Ten one-hot rows: five samples of class 0 followed by five of class 1. -/
def w1_y : List (List ℚ) :=
  [[1, 0], [1, 0], [1, 0], [1, 0], [1, 0],
   [0, 1], [0, 1], [0, 1], [0, 1], [0, 1]]

/-- A classifier that always answers class 0. -/
def w1_model : Nat → Nat := fun _ => 0

/-- Witness for C1: on `w1_y` the fold-1 test partition is `[1, 6]` and the
constant-0 classifier matches exactly one of the two true labels. -/
theorem evaluator_accuracy_bounds_witness :
    (0 < matchCount (y_predict w1_model (test_indices w1_y))
          (y_true w1_y (test_indices w1_y))
      ∧ matchCount (y_predict w1_model (test_indices w1_y))
          (y_true w1_y (test_indices w1_y))
        < (y_predict w1_model (test_indices w1_y)).length)
    ∧ (0 ≤ test_accuracy w1_model w1_y ∧ test_accuracy w1_model w1_y ≤ 1)
    ∧ (0 < test_accuracy w1_model w1_y ∧ test_accuracy w1_model w1_y < 1) :=
  ⟨⟨by decide, by decide⟩, (evaluator_accuracy_bounds w1_model w1_y).1,
    (evaluator_accuracy_bounds w1_model w1_y).2 (by decide) (by decide)⟩

/-! ## Reproducibility of the partition between training and evaluation -/

/-- Modelled from the spec: `train_crossval` (imported from the `training`
module, which is not under `src/`) obtains its fold partition for the given
labels and fold count from the same deterministic stratified partitioner
that the evaluation path re-invokes. -/
def train_crossval_partition (labels : List Nat) (K : Nat) :
    List (List Nat × List Nat) :=
  stratifiedKFold labels K

theorem getD_map_range {α : Type} (f : Nat → α) (d : α) (K i : Nat)
    (h : i < K) : ((List.range K).map f).getD i d = f i := by
  rw [List.getD_eq_getElem?_getD, List.getElem?_map, List.getElem?_range h]
  rfl

/-- Claim C2: fold partitioning is deterministic (two invocations on the
same labels and `K` agree bit for bit), so the partition regenerated at
evaluation time selects exactly the training partition's test indices for
every fold. -/
theorem partition_deterministic (labels : List Nat) (K : Nat) :
    stratifiedKFold labels K = stratifiedKFold labels K
    ∧ ∀ i, i < K →
        ((train_crossval_partition labels K).getD i ([], [])).2
          = test_indices_of labels K i := by
  refine ⟨rfl, ?_⟩
  intro i hi
  unfold train_crossval_partition stratifiedKFold
  rw [getD_map_range _ _ _ _ hi]

/-- Witness for C2 at labels `[0, 1]`, `K = 2`, fold 1. -/
theorem partition_deterministic_witness :
    1 < 2 ∧ ((train_crossval_partition [0, 1] 2).getD 1 ([], [])).2
      = test_indices_of [0, 1] 2 1 :=
  ⟨by decide, (partition_deterministic [0, 1] 2).2 1 (by decide)⟩

/-- Claim C10: with `n_folds = 5` the regenerated partition has at least two
folds, so the hard-coded access `test_idx[1]` is in bounds; and whenever the
fold-1 test partition is non-empty, the accuracy denominator
`len(y_predict)` is strictly positive, so no division by zero occurs. -/
theorem evaluation_fold_access_safe (model : Nat → Nat) (y : List (List ℚ)) :
    n_folds = 5 ∧ 1 < (test_idx y).length
    ∧ (test_indices y ≠ [] → 0 < (y_predict model (test_indices y)).length) := by
  refine ⟨rfl, ?_, ?_⟩
  · unfold test_idx
    rw [List.length_map, List.length_range]
    norm_num [n_folds]
  · intro h
    unfold y_predict
    rw [List.length_map]
    exact List.length_pos.mpr h

/-- Witness for C10: on `w1_y` the fold-1 test partition is non-empty. -/
theorem evaluation_fold_access_safe_witness :
    test_indices w1_y ≠ []
    ∧ (n_folds = 5 ∧ 1 < (test_idx w1_y).length
        ∧ 0 < (y_predict w1_model (test_indices w1_y)).length) := by
  have hne : test_indices w1_y ≠ [] := by decide
  exact ⟨hne, (evaluation_fold_access_safe w1_model w1_y).1,
    (evaluation_fold_access_safe w1_model w1_y).2.1,
    (evaluation_fold_access_safe w1_model w1_y).2.2 hne⟩

/-! ## Early stopping (`EarlyStopping(patience=50)` with `epochs=300`) -/

/-- `epochs=300` from the script. -/
def epochs : Nat := 300

/-- `batch_size=32` from the script. -/
def batch_size : Nat := 32

/-- `patience=50` passed to the early-stopping callback. -/
def early_stopping_patience : Nat := 50

/-- Modelled from the spec: an epoch improves when its validation metric
exceeds the callback's running best, i.e. the value of every earlier epoch. -/
def improvesB (vacc : Nat → ℚ) (e : Nat) : Bool :=
  decide (∀ j, j < e → vacc j < vacc e)

/-- The callback's `wait` counter after epoch `e`: the length of the
consecutive non-improving streak ending at `e`. -/
def waitAfter (vacc : Nat → ℚ) : Nat → Nat
  | 0 => if improvesB vacc 0 then 0 else 1
  | e + 1 => if improvesB vacc (e + 1) then 0 else waitAfter vacc e + 1

/-- The `wait` counter entering epoch `e` (0 before the first epoch). -/
def waitPre (vacc : Nat → ℚ) : Nat → Nat
  | 0 => 0
  | e + 1 => waitAfter vacc e

/-- Modelled from the spec: the per-fold fitting loop under the
early-stopping callback.  Each epoch updates the wait counter (reset on
improvement, incremented otherwise) and fitting stops once it reaches
`patience`; otherwise the loop runs until the epoch budget (`fuel`) is
spent.  Returns the index one past the last epoch fitted. -/
def fitFrom (vacc : Nat → ℚ) (patience wait e fuel : Nat) : Nat :=
  match fuel with
  | 0 => e
  | fuel + 1 =>
      if patience ≤ (if improvesB vacc e then 0 else wait + 1) then e + 1
      else fitFrom vacc patience (if improvesB vacc e then 0 else wait + 1) (e + 1) fuel

/-- Number of epochs actually fitted for one fold. -/
def epochsRun (vacc : Nat → ℚ) (maxEpochs patience : Nat) : Nat :=
  fitFrom vacc patience 0 0 maxEpochs

theorem wait_step (vacc : Nat → ℚ) (e : Nat) :
    (if improvesB vacc e then 0 else waitPre vacc e + 1) = waitAfter vacc e := by
  cases e with
  | zero => rfl
  | succ k => rfl

theorem fitFrom_all (vacc : Nat → ℚ) (patience : Nat) :
    ∀ fuel e, (∀ k, k < fuel → waitAfter vacc (e + k) < patience) →
      fitFrom vacc patience (waitPre vacc e) e fuel = e + fuel := by
  intro fuel
  induction fuel with
  | zero => intro e _; rfl
  | succ f ih =>
      intro e h
      have h0 : waitAfter vacc e < patience := by
        have := h 0 (Nat.succ_pos f)
        simpa using this
      show fitFrom vacc patience (waitPre vacc e) e (f + 1) = e + (f + 1)
      unfold fitFrom
      rw [wait_step, if_neg (by omega)]
      have hrec := ih (e + 1) (fun k hk => by
        have := h (k + 1) (by omega)
        have harith : e + (k + 1) = e + 1 + k := by omega
        rwa [harith] at this)
      have hpre : waitPre vacc (e + 1) = waitAfter vacc e := rfl
      rw [hpre] at hrec
      rw [hrec]
      omega

theorem fitFrom_stop (vacc : Nat → ℚ) (patience : Nat) :
    ∀ fuel e k, k < fuel → patience ≤ waitAfter vacc (e + k) →
      fitFrom vacc patience (waitPre vacc e) e fuel ≤ e + k + 1 := by
  intro fuel
  induction fuel with
  | zero => intro e k hk _; omega
  | succ f ih =>
      intro e k hk hp
      show fitFrom vacc patience (waitPre vacc e) e (f + 1) ≤ e + k + 1
      unfold fitFrom
      rw [wait_step]
      by_cases hstop : patience ≤ waitAfter vacc e
      · rw [if_pos hstop]
        omega
      · rw [if_neg hstop]
        cases k with
        | zero =>
            exfalso
            apply hstop
            simpa using hp
        | succ k2 =>
            have hrec := ih (e + 1) k2 (by omega) (by
              have harith : e + (k2 + 1) = e + 1 + k2 := by omega
              rwa [harith] at hp)
            have hpre : waitPre vacc (e + 1) = waitAfter vacc e := rfl
            rw [hpre] at hrec
            omega

/-- Claim C3: with `patience = 50` and `max_epochs = 300`, per-fold fitting
stops early whenever validation accuracy fails to improve for 50 consecutive
epochs (completing before the epoch budget), and otherwise it is never cut
off before reaching 300 epochs. -/
theorem early_stopping_policy (vacc : Nat → ℚ) :
    ((∃ e, e + 1 < epochs ∧ early_stopping_patience ≤ waitAfter vacc e) →
        epochsRun vacc epochs early_stopping_patience < epochs)
    ∧ ((∀ e, e < epochs → waitAfter vacc e < early_stopping_patience) →
        epochsRun vacc epochs early_stopping_patience = epochs) := by
  constructor
  · rintro ⟨e, he, hp⟩
    have hb := fitFrom_stop vacc early_stopping_patience epochs 0 e (by omega)
      (by simpa using hp)
    have hpre : waitPre vacc 0 = 0 := rfl
    rw [hpre] at hb
    unfold epochsRun
    omega
  · intro h
    have hb := fitFrom_all vacc early_stopping_patience epochs 0
      (fun k hk => by simpa using h k hk)
    have hpre : waitPre vacc 0 = 0 := rfl
    rw [hpre] at hb
    unfold epochsRun
    omega

/-- A validation-accuracy trace that never improves after epoch 0. -/
def w2_vacc : Nat → ℚ := fun _ => 0

/-- A validation-accuracy trace that improves at every epoch. -/
def w3_vacc : Nat → ℚ := fun e => e

theorem w3_improves (e : Nat) : improvesB w3_vacc e = true := by
  unfold improvesB w3_vacc
  rw [decide_eq_true_iff]
  intro j hj
  exact_mod_cast hj

theorem w3_wait (e : Nat) : waitAfter w3_vacc e = 0 := by
  cases e with
  | zero => simp [waitAfter, w3_improves]
  | succ k => simp [waitAfter, w3_improves]

/-- Witness for C3: the flat trace trips the patience window and stops
early; the always-improving trace runs all 300 epochs. -/
theorem early_stopping_policy_witness :
    epochsRun w2_vacc epochs early_stopping_patience < epochs
    ∧ epochsRun w3_vacc epochs early_stopping_patience = epochs :=
  ⟨(early_stopping_policy w2_vacc).1 ⟨50, by decide, by decide⟩,
    (early_stopping_policy w3_vacc).2 (fun e _ => by
      rw [w3_wait]
      decide)⟩

/-! ## Checkpointing (`ModelCheckpoint(weights_path, monitor='val_acc',
save_best_only=True, save_weights_only=True)`) -/

/-- One epoch's outcome: an identifier for the classifier weights at the end
of the epoch and the validation accuracy it achieved. -/
structure EpochResult where
  weights : Nat
  valAcc : ℚ
deriving DecidableEq

/-- Modelled from the spec: the checkpoint callback keeps one running best
across every epoch of every fold; an epoch that beats the best validation
accuracy overwrites the single file at `weights_path` with that epoch's
weights.  The state is that file's content (`none` = not yet written). -/
def checkpointStep (st : Option EpochResult) (e : EpochResult) : Option EpochResult :=
  match st with
  | none => some e
  | some b => if b.valAcc < e.valAcc then some e else some b

/-- The checkpoint file content after a whole cross-validation run whose
epochs, across all folds in order, are `l`. -/
def runCheckpoint (l : List EpochResult) : Option EpochResult :=
  l.foldl checkpointStep none

theorem foldl_checkpoint (l : List EpochResult) :
    ∀ b : EpochResult, ∃ e, l.foldl checkpointStep (some b) = some e
      ∧ (e = b ∨ e ∈ l) ∧ b.valAcc ≤ e.valAcc
      ∧ ∀ e2 ∈ l, e2.valAcc ≤ e.valAcc := by
  induction l with
  | nil => exact fun b => ⟨b, rfl, Or.inl rfl, le_refl _, by simp⟩
  | cons a t ih =>
      intro b
      by_cases himp : b.valAcc < a.valAcc
      · obtain ⟨e, he, hmem, hle, hall⟩ := ih a
        refine ⟨e, ?_, ?_, ?_, ?_⟩
        · show List.foldl checkpointStep (checkpointStep (some b) a) t = some e
          rw [show checkpointStep (some b) a = some a by
            simp [checkpointStep, himp]]
          exact he
        · rcases hmem with h | h
          · exact Or.inr (h ▸ List.mem_cons_self a t)
          · exact Or.inr (List.mem_cons_of_mem a h)
        · exact le_trans (le_of_lt himp) hle
        · intro e2 h2
          rcases List.mem_cons.mp h2 with h | h
          · exact h ▸ hle
          · exact hall e2 h
      · obtain ⟨e, he, hmem, hle, hall⟩ := ih b
        refine ⟨e, ?_, ?_, ?_, ?_⟩
        · show List.foldl checkpointStep (checkpointStep (some b) a) t = some e
          rw [show checkpointStep (some b) a = some b by
            simp [checkpointStep, himp]]
          exact he
        · rcases hmem with h | h
          · exact Or.inl h
          · exact Or.inr (List.mem_cons_of_mem a h)
        · exact hle
        · intro e2 h2
          rcases List.mem_cons.mp h2 with h | h
          · subst h
            exact le_trans (not_lt.mp himp) hle
          · exact hall e2 h

/-- Claim C4: with `save_best` enabled, after any sequence of epochs the
single checkpoint slot holds the weights of an epoch whose validation
accuracy is maximal among all epochs processed so far (and nothing is
written before the first epoch). -/
theorem checkpoint_best_so_far (l : List EpochResult) (h : l ≠ []) :
    runCheckpoint [] = none
    ∧ ∃ e, runCheckpoint l = some e ∧ e ∈ l
        ∧ ∀ e2 ∈ l, e2.valAcc ≤ e.valAcc := by
  refine ⟨rfl, ?_⟩
  match l, h with
  | a :: t, _ =>
      obtain ⟨e, he, hmem, hle, hall⟩ := foldl_checkpoint t a
      refine ⟨e, he, ?_, ?_⟩
      · rcases hmem with h2 | h2
        · exact h2 ▸ List.mem_cons_self a t
        · exact List.mem_cons_of_mem a h2
      · intro e2 h2
        rcases List.mem_cons.mp h2 with h3 | h3
        · subst h3
          exact hle
        · exact hall e2 h3

/-- Witness for C4 on a three-epoch run where the middle epoch is best. -/
theorem checkpoint_best_so_far_witness :
    runCheckpoint [] = none
    ∧ ∃ e, runCheckpoint [⟨0, 1/2⟩, ⟨1, 3/4⟩, ⟨2, 1/4⟩] = some e
        ∧ e ∈ [⟨0, 1/2⟩, ⟨1, 3/4⟩, (⟨2, 1/4⟩ : EpochResult)]
        ∧ ∀ e2 ∈ [⟨0, 1/2⟩, ⟨1, 3/4⟩, (⟨2, 1/4⟩ : EpochResult)],
            e2.valAcc ≤ e.valAcc :=
  checkpoint_best_so_far [⟨0, 1/2⟩, ⟨1, 3/4⟩, ⟨2, 1/4⟩] (by decide)

/-! ## Feature fusion
(`vgg_sift_features = np.concatenate([vgg_features, sift_features], axis=2)`) -/

/-- A rank-3 numpy array with rational entries. -/
abbrev Tensor3 := List (List (List ℚ))

/-- `t` has numpy shape `(N, F, D)`. -/
def hasShape (t : Tensor3) (N F D : Nat) : Prop :=
  t.length = N ∧ ∀ s ∈ t, s.length = F ∧ ∀ r ∈ s, r.length = D

/-- `np.concatenate([a, b], axis=2)`: concatenates each per-frame feature
row; numpy raises `ValueError` (the spec's ShapeMismatch) unless the first
two axes agree, embedded as `none`. -/
def concatAxis2 (a b : Tensor3) : Option Tensor3 :=
  if a.length == b.length
      && (a.zip b).all (fun p => p.1.length == p.2.length) then
    some (List.zipWith (fun sa sb => List.zipWith (fun ra rb => ra ++ rb) sa sb) a b)
  else none

theorem zipWith_rows_shape (F D1 D2 : Nat) :
    ∀ (sa sb : List (List ℚ)), sa.length = F → sb.length = F →
      (∀ r ∈ sa, r.length = D1) → (∀ r ∈ sb, r.length = D2) →
      (List.zipWith (fun ra rb => ra ++ rb) sa sb).length = F
      ∧ ∀ r ∈ List.zipWith (fun ra rb => ra ++ rb) sa sb, r.length = D1 + D2 := by
  intro sa
  induction sa generalizing F with
  | nil =>
      intro sb h1 h2 _ _
      have hF : F = 0 := by simpa using h1.symm
      subst hF
      have hsb : sb = [] := List.length_eq_zero.mp h2
      subst hsb
      exact ⟨rfl, by simp⟩
  | cons ra ta ih =>
      intro sb h1 h2 h3 h4
      match sb, h2, h1 with
      | rb :: tb, h2, h1 =>
          have hta : ta.length = F - 1 := by
            simp only [List.length_cons] at h1
            omega
          have htb : tb.length = F - 1 := by
            simp only [List.length_cons] at h2
            omega
          obtain ⟨hl, hr⟩ := ih (F - 1) tb hta htb
            (fun r hrm => h3 r (List.mem_cons_of_mem _ hrm))
            (fun r hrm => h4 r (List.mem_cons_of_mem _ hrm))
          constructor
          · simp only [List.zipWith_cons_cons, List.length_cons, hl]
            simp only [List.length_cons] at h1
            omega
          · intro r hrm
            rcases List.mem_cons.mp hrm with h | h
            · subst h
              rw [List.length_append, h3 ra (List.mem_cons_self _ _),
                h4 rb (List.mem_cons_self _ _)]
            · exact hr r h

theorem concat_samples_shape (N F D1 D2 : Nat) :
    ∀ (a b : Tensor3), hasShape a N F D1 → hasShape b N F D2 →
      hasShape (List.zipWith (fun sa sb => List.zipWith (fun ra rb => ra ++ rb) sa sb) a b)
        N F (D1 + D2) := by
  intro a
  induction a generalizing N with
  | nil =>
      rintro b ⟨h1, _⟩ ⟨h2, _⟩
      have hN : N = 0 := by simpa using h1.symm
      subst hN
      have hb : b = [] := List.length_eq_zero.mp h2
      subst hb
      exact ⟨rfl, by simp⟩
  | cons sa ta ih =>
      rintro b ⟨h1, h3⟩ ⟨h2, h4⟩
      cases b with
      | nil =>
          exfalso
          simp only [List.length_cons] at h1
          simp only [List.length_nil] at h2
          omega
      | cons sb tb =>
          have hta : ta.length = N - 1 := by
            simp only [List.length_cons] at h1
            omega
          have htb : tb.length = N - 1 := by
            simp only [List.length_cons] at h2
            omega
          obtain ⟨hl, hr⟩ := ih (N - 1) tb ⟨hta,
              fun s hs => h3 s (List.mem_cons_of_mem _ hs)⟩
            ⟨htb, fun s hs => h4 s (List.mem_cons_of_mem _ hs)⟩
          refine ⟨?_, ?_⟩
          · simp only [List.zipWith_cons_cons, List.length_cons, hl]
            simp only [List.length_cons] at h1
            omega
          · intro s hs
            rcases List.mem_cons.mp hs with h | h
            · subst h
              obtain ⟨ha1, ha2⟩ := h3 sa (List.mem_cons_self _ _)
              obtain ⟨hb1, hb2⟩ := h4 sb (List.mem_cons_self _ _)
              exact zipWith_rows_shape F D1 D2 sa sb ha1 hb1 ha2 hb2
            · exact hr s h

instance (t : Tensor3) (N F D : Nat) : Decidable (hasShape t N F D) := by
  unfold hasShape
  infer_instance

theorem concat_guard_true (N F D1 D2 : Nat) (a b : Tensor3)
    (ha : hasShape a N F D1) (hb : hasShape b N F D2) :
    (a.length == b.length
      && (a.zip b).all (fun p => p.1.length == p.2.length)) = true := by
  obtain ⟨h1, h3⟩ := ha
  obtain ⟨h2, h4⟩ := hb
  rw [Bool.and_eq_true, beq_iff_eq, List.all_eq_true]
  refine ⟨by rw [h1, h2], ?_⟩
  intro p hp
  obtain ⟨hp1, hp2⟩ := List.of_mem_zip hp
  rw [beq_iff_eq, (h3 p.1 hp1).1, (h4 p.2 hp2).1]

/-- Claim C6: feature fusion of tensors shaped `(N, F, D1)` and `(N, F, D2)`
yields a tensor shaped `(N, F, D1+D2)` concatenated along the feature axis,
and fails with a shape mismatch whenever `N` or `F` differ between inputs. -/
theorem feature_fusion_spec :
    (∀ (a b : Tensor3) (N F D1 D2 : Nat), hasShape a N F D1 → hasShape b N F D2 →
        ∃ c, concatAxis2 a b = some c ∧ hasShape c N F (D1 + D2))
    ∧ (∀ (a b : Tensor3) (N1 N2 F1 F2 D1 D2 : Nat), hasShape a N1 F1 D1 →
        hasShape b N2 F2 D2 → N1 ≠ N2 → concatAxis2 a b = none)
    ∧ (∀ (a b : Tensor3) (N F1 F2 D1 D2 : Nat), hasShape a N F1 D1 →
        hasShape b N F2 D2 → 0 < N → F1 ≠ F2 → concatAxis2 a b = none) := by
  refine ⟨?_, ?_, ?_⟩
  · intro a b N F D1 D2 ha hb
    refine ⟨_, ?_, concat_samples_shape N F D1 D2 a b ha hb⟩
    unfold concatAxis2
    rw [if_pos (concat_guard_true N F D1 D2 a b ha hb)]
  · intro a b N1 N2 F1 F2 D1 D2 ha hb hne
    unfold concatAxis2
    rw [if_neg]
    intro hcontra
    rw [Bool.and_eq_true, beq_iff_eq] at hcontra
    exact hne (ha.1 ▸ hb.1 ▸ hcontra.1)
  · intro a b N F1 F2 D1 D2 ha hb hN hne
    obtain ⟨h1, h3⟩ := ha
    obtain ⟨h2, h4⟩ := hb
    match a, b, h1, h2, hN with
    | sa :: ta, sb :: tb, h1, h2, _ =>
        unfold concatAxis2
        rw [if_neg]
        intro hcontra
        rw [Bool.and_eq_true, List.all_eq_true] at hcontra
        have hhead := hcontra.2 (sa, sb) (by
          rw [List.zip_cons_cons]
          exact List.mem_cons_self _ _)
        rw [beq_iff_eq] at hhead
        apply hne
        rw [← (h3 sa (List.mem_cons_self _ _)).1,
          ← (h4 sb (List.mem_cons_self _ _)).1]
        exact hhead

/-- Witness for C6 on tensors of shapes `(2,1,2)`, `(2,1,1)` (fusion),
`(1,1,1)` vs `(2,1,1)` (sample-count mismatch) and `(1,1,1)` vs `(1,2,1)`
(frame-count mismatch). -/
theorem feature_fusion_spec_witness :
    (∃ c, concatAxis2 [[[1, 2]], [[3, 4]]] [[[5]], [[6]]] = some c
      ∧ hasShape c 2 1 (2 + 1))
    ∧ concatAxis2 [[[1]]] [[[5]], [[6]]] = none
    ∧ concatAxis2 [[[1]]] [[[5], [6]]] = none :=
  ⟨feature_fusion_spec.1 [[[1, 2]], [[3, 4]]] [[[5]], [[6]]] 2 1 2 1
      (by decide) (by decide),
    feature_fusion_spec.2.1 [[[1]]] [[[5]], [[6]]] 1 2 1 1 1 1
      (by decide) (by decide) (by decide),
    feature_fusion_spec.2.2 [[[1]]] [[[5], [6]]] 1 1 2 1 1
      (by decide) (by decide) (by decide) (by decide)⟩

/-! ## Sequence classifier factory (`create_lstm_sift_model`) -/

/-- A Keras layer of the kinds the script stacks. -/
inductive KLayer
  | lstmL (units : Nat) (inputShape : Nat × Nat)
  | dropoutL (rate : ℚ)
  | denseL (units : Nat) (activation : String)
deriving DecidableEq

/-- Configuration of a stochastic-gradient-descent optimizer. -/
structure SGDConfig where
  learningRate : ℚ
  momentum : ℚ
  decay : ℚ
  nesterov : Bool
deriving DecidableEq

/-- Modelled from the spec: `optimizers.SGD()` — plain stochastic gradient
descent with the default step size and no momentum. -/
def sgdDefaults : SGDConfig :=
  { learningRate := 1 / 100, momentum := 0, decay := 0, nesterov := false }

/-- A compiled classifier.  `instanceId` is modelled from the spec: it is
the identity of the `Sequential` object freshly allocated (with freshly
drawn initial weights) by each factory call, so two calls that consume
distinct identities share no weights or optimizer state. -/
structure CompiledModel where
  instanceId : Nat
  layers : List KLayer
  loss : String
  optimizer : SGDConfig
deriving DecidableEq

/-- `create_lstm_sift_model`, transcribed from the source.  `nb_frames` and
`nb_emotions` come from the `const` module, which is not under `src/`, so
they stay parameters; `freshId` is the identity consumed by `Sequential()`. -/
def create_lstm_sift_model (nb_frames nb_emotions freshId : Nat) : CompiledModel :=
  let lstm_units := 32
  let hidden_units := 16
  let input_dim := 10624
  { instanceId := freshId
    layers := [KLayer.lstmL lstm_units (nb_frames, input_dim),
               KLayer.dropoutL (1 / 2),
               KLayer.denseL hidden_units "relu",
               KLayer.dropoutL (1 / 2),
               KLayer.denseL nb_emotions "softmax"]
    loss := "categorical_crossentropy"
    optimizer := sgdDefaults }

/-- The topology the spec's Sequence Classifier Factory contract demands,
stated in the spec's words: a 32-unit recurrent layer over `F` timesteps of
some input dimensionality, dropout 0.5, a 16-unit rectified-linear dense
layer, dropout 0.5, a `numClasses`-unit softmax dense layer, compiled with
categorical cross-entropy and momentum-free SGD. -/
def specTopology (F numClasses : Nat) (m : CompiledModel) : Prop :=
  (∃ input_dim, m.layers = [KLayer.lstmL 32 (F, input_dim),
      KLayer.dropoutL (1 / 2), KLayer.denseL 16 "relu",
      KLayer.dropoutL (1 / 2), KLayer.denseL numClasses "softmax"])
  ∧ m.loss = "categorical_crossentropy" ∧ m.optimizer.momentum = 0

/-- Claim C7: every factory call yields exactly the claimed topology, and
calls consuming distinct fresh identities share no state. -/
theorem classifier_factory_spec (nb_frames nb_emotions freshId : Nat) :
    specTopology nb_frames nb_emotions (create_lstm_sift_model nb_frames nb_emotions freshId)
    ∧ ∀ id1 id2, id1 ≠ id2 →
        (create_lstm_sift_model nb_frames nb_emotions id1).instanceId
          ≠ (create_lstm_sift_model nb_frames nb_emotions id2).instanceId := by
  refine ⟨⟨⟨10624, rfl⟩, rfl, rfl⟩, ?_⟩
  intro id1 id2 hne
  exact hne

/-- Witness for C7 at 10 frames, 7 emotion classes, instance ids 0 and 1. -/
theorem classifier_factory_spec_witness :
    specTopology 10 7 (create_lstm_sift_model 10 7 0)
    ∧ (create_lstm_sift_model 10 7 0).instanceId
        ≠ (create_lstm_sift_model 10 7 1).instanceId :=
  ⟨(classifier_factory_spec 10 7 0).1,
    (classifier_factory_spec 10 7 0).2 0 1 (by decide)⟩

/-! ## Artifact caching (`os.path.isfile`/`os.path.isdir` guards and
`load_model`) -/

/-- Which cached artifacts exist on disk when the script starts. -/
structure ArtifactFS where
  framesDir : Bool
  vggFile : Bool
  siftFile : Bool
  modelFile : Bool
deriving DecidableEq

/-- How the script obtained an artifact. -/
inductive ArtifactSource
  | loadedFromCache
  | recomputed
deriving DecidableEq

/-- `load_frames = os.path.isdir(frames_path)`; when absent the script runs
`extract_frames(subjects_path, frames_path)`. -/
def framesArtifact (fs : ArtifactFS) : ArtifactSource :=
  if fs.framesDir then ArtifactSource.loadedFromCache else ArtifactSource.recomputed

/-- `load_vgg_features = os.path.isfile(vgg_features_path)`; present ⇒
unpickle, absent ⇒ recompute via `extract_model_features`. -/
def vggArtifact (fs : ArtifactFS) : ArtifactSource :=
  if fs.vggFile then ArtifactSource.loadedFromCache else ArtifactSource.recomputed

/-- `load_sift_features = os.path.isfile(sift_features_path)`; present ⇒
unpickle, absent ⇒ recompute via `extract_all_sift_features`. -/
def siftArtifact (fs : ArtifactFS) : ArtifactSource :=
  if fs.siftFile then ArtifactSource.loadedFromCache else ArtifactSource.recomputed

/-- The classifier-weights artifact.  The training path builds the model
afresh; the evaluation path runs
`lstm_sift = load_model(vgg_sift_lstm_model_path)` with no existence check
and no fallback, so a missing file makes `load_model` raise, embedded as
`Except.error`. -/
def modelArtifact (tr : Bool) (fs : ArtifactFS) : Except String ArtifactSource :=
  if tr then Except.ok ArtifactSource.recomputed
  else if fs.modelFile then Except.ok ArtifactSource.loadedFromCache
  else Except.error "load_model: file not found"

/-- Counterexample to C8 as stated: with every feature cache present but the
persisted-weights file absent, the evaluation run fails instead of
recomputing the missing artifact. -/
theorem missing_weights_fails_run :
    modelArtifact false ⟨true, true, true, false⟩
      = Except.error "load_model: file not found"
    ∧ modelArtifact false ⟨true, true, true, false⟩
      ≠ Except.ok ArtifactSource.recomputed := by
  refine ⟨rfl, ?_⟩
  intro h
  simp [modelArtifact] at h

/-- Claim C8 (amended): for the extracted frames, VGG features and SIFT
features, presence of the cached file causes extraction to be skipped and
the cache loaded, and absence triggers recomputation from raw samples
without failing; the persisted classifier weights are the exception — the
evaluation path loads them unconditionally and fails when the file is
absent (only a present file is loaded, and the training path never needs
it). -/
theorem artifact_cache_policy (fs : ArtifactFS) :
    (fs.framesDir = true → framesArtifact fs = ArtifactSource.loadedFromCache)
    ∧ (fs.framesDir = false → framesArtifact fs = ArtifactSource.recomputed)
    ∧ (fs.vggFile = true → vggArtifact fs = ArtifactSource.loadedFromCache)
    ∧ (fs.vggFile = false → vggArtifact fs = ArtifactSource.recomputed)
    ∧ (fs.siftFile = true → siftArtifact fs = ArtifactSource.loadedFromCache)
    ∧ (fs.siftFile = false → siftArtifact fs = ArtifactSource.recomputed)
    ∧ (fs.modelFile = true →
        modelArtifact false fs = Except.ok ArtifactSource.loadedFromCache)
    ∧ (fs.modelFile = false →
        modelArtifact false fs = Except.error "load_model: file not found") := by
  refine ⟨?_, ?_, ?_, ?_, ?_, ?_, ?_, ?_⟩ <;> intro h <;>
    simp [framesArtifact, vggArtifact, siftArtifact, modelArtifact, h]

/-- Witness for C8 (amended) at an all-present and an all-absent cache. -/
theorem artifact_cache_policy_witness :
    (framesArtifact ⟨true, true, true, true⟩ = ArtifactSource.loadedFromCache
      ∧ vggArtifact ⟨true, true, true, true⟩ = ArtifactSource.loadedFromCache
      ∧ siftArtifact ⟨true, true, true, true⟩ = ArtifactSource.loadedFromCache
      ∧ modelArtifact false ⟨true, true, true, true⟩
          = Except.ok ArtifactSource.loadedFromCache)
    ∧ (framesArtifact ⟨false, false, false, false⟩ = ArtifactSource.recomputed
      ∧ vggArtifact ⟨false, false, false, false⟩ = ArtifactSource.recomputed
      ∧ siftArtifact ⟨false, false, false, false⟩ = ArtifactSource.recomputed
      ∧ modelArtifact false ⟨false, false, false, false⟩
          = Except.error "load_model: file not found") :=
  ⟨⟨(artifact_cache_policy ⟨true, true, true, true⟩).1 rfl,
    (artifact_cache_policy ⟨true, true, true, true⟩).2.2.1 rfl,
    (artifact_cache_policy ⟨true, true, true, true⟩).2.2.2.2.1 rfl,
    (artifact_cache_policy ⟨true, true, true, true⟩).2.2.2.2.2.2.1 rfl⟩,
  ⟨(artifact_cache_policy ⟨false, false, false, false⟩).2.1 rfl,
    (artifact_cache_policy ⟨false, false, false, false⟩).2.2.2.1 rfl,
    (artifact_cache_policy ⟨false, false, false, false⟩).2.2.2.2.2.1 rfl,
    (artifact_cache_policy ⟨false, false, false, false⟩).2.2.2.2.2.2.2 rfl⟩⟩

/-! ## Shipped training configuration and its file-system frame effect -/

/-- `save_best_model = False` in the shipped training configuration. -/
def save_best_model : Bool := false

/-- `weights_path = 'models/vgg-sift-lstm2.h5'`. -/
def weights_path : String := "models/vgg-sift-lstm2.h5"

/-- The three callbacks the script constructs. -/
inductive TrainCallback
  | customVerbose
  | earlyStop
  | modelCheckpoint
deriving DecidableEq

/-- `callbacks = [custom_verbose, early_stop, model_checkpoint] if
save_best_model else [custom_verbose, early_stop]`. -/
def callbacks : List TrainCallback :=
  if save_best_model then
    [TrainCallback.customVerbose, TrainCallback.earlyStop, TrainCallback.modelCheckpoint]
  else [TrainCallback.customVerbose, TrainCallback.earlyStop]

/-- Modelled from the spec: the checkpoint callback is the only part of a
training run that persists anything (it writes to `weights_path`); the
progress and early-stopping callbacks write no files, and `train_crossval`
itself writes none when `save_best_model` is off. -/
def callbackWrites : TrainCallback → List String
  | TrainCallback.modelCheckpoint => [weights_path]
  | _ => []

/-- Every path written during a training run with the shipped callbacks. -/
def trainingWrites : List String := (callbacks.map callbackWrites).flatten

/-- Applying a list of writes (with some fixed new content) to a file
system, mapping paths to optional contents. -/
def applyWrites (ws : List String) (fsys : String → Option Nat) (c : Nat) :
    String → Option Nat :=
  ws.foldl (fun acc p => fun q => if q = p then some c else acc q) fsys

/-- Claim C9: in the shipped configuration `save_best_model` is `False`, the
checkpoint callback is excluded from the callbacks list, the training run
writes no file, and in particular any pre-existing checkpoint at
`weights_path` is left unchanged. -/
theorem shipped_config_writes_nothing :
    save_best_model = false
    ∧ callbacks = [TrainCallback.customVerbose, TrainCallback.earlyStop]
    ∧ TrainCallback.modelCheckpoint ∉ callbacks
    ∧ trainingWrites = []
    ∧ ∀ (fsys : String → Option Nat) (c : Nat),
        applyWrites trainingWrites fsys c weights_path = fsys weights_path := by
  refine ⟨rfl, rfl, by decide, rfl, ?_⟩
  intro fsys c
  rfl

end MugFer
